import Mathlib

/-!
Verification of the free-for-all QP test-set loader (`free_for_all.py`).

The file embeds the two core functions of the repository:

* `load_problem_from_mat_file` (source lines 73-114): reads the raw
  double-sided arrays `P, q, A, l, u, n, m` out of a MAT file, checks
  `A.shape == (m, n)`, replaces sentinel values of magnitude above `9e19`
  by signed infinities, splits `A`/`l`/`u` into the general constraint
  block and the box-bound block, and hands the result to the converter.
  File I/O (`spio.loadmat`) is abstracted by a `MatDict` structure that
  holds the already-loaded numeric fields; the Python `assert` on the
  shape is modelled as an `Except` error.

* `convert_problem_from_double_sided` (source lines 116-171): classifies
  the rows of `C` into equality rows (`u - l < 1e-10`) and inequality
  rows, copies the equality rows into `A`/`b`, stacks each inequality row
  into an upper row `C[i] x <= u[i]` and a lower row `-C[i] x <= -l[i]`,
  prunes stacked rows whose right-hand side is `+inf`, and encodes empty
  blocks as `None`.

Modelling conventions:

* IEEE doubles are modelled as exact rationals extended with the two
  infinities (`EVal`).  The sole arithmetic the code performs on them is
  the elementwise `u - l`, negation, and comparisons; `∞ - ∞ = NaN` is
  represented by a dedicated `XVal.nan` result of the subtraction, and
  comparisons on `NaN` are false, as in IEEE.
* numpy arrays / scipy sparse matrices become `List EVal` /
  `List (List EVal)`.  numpy fancy indexing `v[idx]` becomes a map of
  `List.getD` over the index list, and `np.nonzero` on a boolean mask
  becomes a filter of `List.range`.
* scipy's `.size` on a sparse matrix is the number of stored entries;
  matrices loaded by `spio.loadmat(...).tocsc()` and their slices and
  `vstack`s store exactly the nonzero entries, so `size` is modelled as
  the count of nonzero entries (`nnz`).  `.size` of a 1-D numpy array is
  its length.
-/

/-- An IEEE-double value as it occurs in the loaded data: a finite value
(modelled as an exact rational) or one of the two infinities.  `NaN` does
not occur in the stored data; it can only arise as the result of `∞ - ∞`,
which is given its own type `XVal` below. -/
inductive EVal where
  | negInf : EVal
  | fin : ℚ → EVal
  | posInf : EVal
deriving DecidableEq, Repr, Inhabited

/-- Result of an extended subtraction: a value or `NaN` (from `∞ - ∞`). -/
inductive XVal where
  | nan : XVal
  | negInf : XVal
  | fin : ℚ → XVal
  | posInf : XVal
deriving DecidableEq, Repr

/-- IEEE-style subtraction `a - b` on extended values. -/
def esub : EVal → EVal → XVal
  | .posInf, .posInf => .nan
  | .posInf, .fin _ => .posInf
  | .posInf, .negInf => .posInf
  | .negInf, .negInf => .nan
  | .negInf, .fin _ => .negInf
  | .negInf, .posInf => .negInf
  | .fin _, .posInf => .negInf
  | .fin _, .negInf => .posInf
  | .fin a, .fin b => .fin (a - b)

/-- IEEE-style comparison `x < c` of a subtraction result against a finite
constant: false on `NaN`. -/
def xltFin (x : XVal) (c : ℚ) : Bool :=
  match x with
  | .nan => false
  | .negInf => true
  | .posInf => false
  | .fin a => decide (a < c)

/-- IEEE-style negation. -/
def eneg : EVal → EVal
  | .negInf => .posInf
  | .posInf => .negInf
  | .fin a => .fin (-a)

/-- The elementwise test `h < np.inf` (source line 156): true for every
value except `+∞`. -/
def lt_inf : EVal → Bool
  | .posInf => false
  | _ => true

/-- The equality tolerance `1e-10` of source line 147. -/
def tol : ℚ := 1 / 10 ^ 10

/-- One entry of `bounds_are_equal = u - l < 1e-10` (source line 147). -/
def bounds_are_equal (li ui : EVal) : Bool := xltFin (esub ui li) tol

/-- The whole boolean vector `u - l < 1e-10` (source line 147). -/
def eqMask (l u : List EVal) : List Bool :=
  List.zipWith (fun li ui => bounds_are_equal li ui) l u

/-- `np.asarray(mask).nonzero()` on a 1-D boolean mask: the indices at
which the mask is true, in increasing order (source lines 149 and 153). -/
def nonzeroIdx (mask : List Bool) : List Nat :=
  (List.range mask.length).filter (fun i => mask.getD i false)

/-- The index tuple `eq_rows` of source line 149. -/
def eqRowsOf (l u : List EVal) : List Nat := nonzeroIdx (eqMask l u)

/-- The index tuple `ineq_rows` of source line 153
(`np.logical_not(bounds_are_equal)`). -/
def ineqRowsOf (l u : List EVal) : List Nat :=
  nonzeroIdx ((eqMask l u).map not)

/-- numpy fancy row indexing `M[idx]` on a matrix. -/
def fancyRows (M : List (List EVal)) (idx : List Nat) : List (List EVal) :=
  idx.map (fun i => M.getD i [])

/-- numpy fancy indexing `v[idx]` on a vector. -/
def fancyVec (v : List EVal) (idx : List Nat) : List EVal :=
  idx.map (fun i => v.getD i (.fin 0))

/-- `spa.vstack([C[ineq_rows], -C[ineq_rows]])` (source line 154). -/
def stackedG (C : List (List EVal)) (ineq : List Nat) : List (List EVal) :=
  fancyRows C ineq ++ (fancyRows C ineq).map (List.map eneg)

/-- `np.hstack([u[ineq_rows], -l[ineq_rows]])` (source line 155). -/
def stackedH (l u : List EVal) (ineq : List Nat) : List EVal :=
  fancyVec u ineq ++ (fancyVec l ineq).map eneg

/-- numpy boolean-mask row selection `xs[mask]`. -/
def maskSelect {α : Type} (xs : List α) (mask : List Bool) : List α :=
  (xs.zip mask).filterMap (fun p => if p.2 then some p.1 else none)

/-- Lines 156-159: compute `h_finite = h < np.inf` and, unless every entry
is finite, restrict `G` and `h` to the finite rows. -/
def prunedGH (G0 : List (List EVal)) (h0 : List EVal) :
    List (List EVal) × List EVal :=
  let h_finite := h0.map lt_inf
  if h_finite.all id then (G0, h0)
  else (maskSelect G0 h_finite, maskSelect h0 h_finite)

/-- Number of stored entries of a sparse matrix built (by slicing,
negation and `vstack`) from a `loadmat(...).tocsc()` matrix: the count of
its nonzero entries.  This is scipy's `.size`. -/
def nnz (M : List (List EVal)) : Nat :=
  (M.map (fun r => r.countP (fun e => decide (e ≠ EVal.fin 0)))).sum

/-- The canonical problem container `qpbenchmark.Problem` as constructed
on source lines 161-171: `(P, q, G, h, A, b, lb, ub, name)` with the four
constraint components individually nullable. -/
structure Problem where
  P : List (List ℚ)
  q : List ℚ
  G : Option (List (List EVal))
  h : Option (List EVal)
  A : Option (List (List EVal))
  b : Option (List EVal)
  lb : List EVal
  ub : List EVal
  name : String
deriving DecidableEq, Repr

/-- `convert_problem_from_double_sided` (source lines 116-171).  The
intermediate arrays of lines 147-159 are the named definitions above:
`A = C[eq_rows]` is `fancyRows C (eqRowsOf l u)`, `b = u[eq_rows]` is
`fancyVec u (eqRowsOf l u)`, the stacked `G`/`h` of lines 154-155 are
`stackedG`/`stackedH`, and the pruning of lines 156-159 is `prunedGH`.
Lines 161-171 then encode each component as `None` unless its `.size`
(stored-entry count for the sparse matrices, length for the vectors) is
positive. -/
def convert_problem_from_double_sided
    (P : List (List ℚ)) (q : List ℚ)
    (C : List (List EVal)) (l u : List EVal)
    (lb ub : List EVal) (name : String) : Problem :=
  { P := P
    q := q
    G :=
      if 0 < nnz (prunedGH (stackedG C (ineqRowsOf l u))
          (stackedH l u (ineqRowsOf l u))).1
      then some (prunedGH (stackedG C (ineqRowsOf l u))
          (stackedH l u (ineqRowsOf l u))).1
      else none
    h :=
      if 0 < (prunedGH (stackedG C (ineqRowsOf l u))
          (stackedH l u (ineqRowsOf l u))).2.length
      then some (prunedGH (stackedG C (ineqRowsOf l u))
          (stackedH l u (ineqRowsOf l u))).2
      else none
    A :=
      if 0 < nnz (fancyRows C (eqRowsOf l u))
      then some (fancyRows C (eqRowsOf l u))
      else none
    b :=
      if 0 < (fancyVec u (eqRowsOf l u)).length
      then some (fancyVec u (eqRowsOf l u))
      else none
    lb := lb
    ub := ub
    name := name }

/-- The fields read out of the MAT file by `spio.loadmat` (source lines
87-94), already coerced to numeric arrays: the raw double-sided data
before sentinel normalization. -/
structure MatDict where
  P : List (List ℚ)
  q : List ℚ
  A : List (List ℚ)
  l : List ℚ
  u : List ℚ
  n : Nat
  m : Nat
deriving Repr

/-- The error raised when the declared dimensions disagree with the shape
of the loaded matrix (the `assert A.shape == (m, n)` of source line 95). -/
inductive LoadError where
  | ShapeMismatchError : LoadError
deriving DecidableEq, Repr

/-- Sentinel normalization of one entry (source lines 97-103): values
above `9e19` become `+∞`, values below `-9e19` become `-∞`, everything
else is kept. -/
def normalizeEntry (x : ℚ) : EVal :=
  if 9 * 10 ^ 19 < x then .posInf
  else if x < -(9 * 10 ^ 19) then .negInf
  else .fin x

/-- Sentinel normalization of a matrix (`A[A > +9e19] = +np.inf` and
`A[A < -9e19] = -np.inf`, source lines 98 and 101). -/
def normalizeMat (M : List (List ℚ)) : List (List EVal) :=
  M.map (List.map normalizeEntry)

/-- Sentinel normalization of a vector (source lines 99-100, 102-103). -/
def normalizeVec (v : List ℚ) : List EVal := v.map normalizeEntry

/-- Shape of a (rectangular) loaded matrix: `(rows, cols)`. -/
def matShape (M : List (List ℚ)) : Nat × Nat :=
  (M.length, (M.headD []).length)

/-- Python slice `xs[-n:]` — the last `n` elements, except that `n = 0`
yields the whole list (because `-0 = 0`). -/
def sliceLast {α : Type} (xs : List α) (n : Nat) : List α :=
  if n = 0 then xs else xs.drop (xs.length - n)

/-- Python slice `xs[:-n]` — everything but the last `n` elements, except
that `n = 0` yields the empty list (because `xs[:0] = []`). -/
def sliceDropLast {α : Type} (xs : List α) (n : Nat) : List α :=
  if n = 0 then [] else xs.take (xs.length - n)

/-- Source lines 97-114: the part of `load_problem_from_mat_file` that
runs after the shape assertion succeeds — normalize the sentinels, split
off the box-bound block, and convert. -/
def loadBody (d : MatDict) (name : String) : Problem :=
  let A := normalizeMat d.A
  let l := normalizeVec d.l
  let u := normalizeVec d.u
  let lb := sliceLast l d.n
  let ub := sliceLast u d.n
  let C := sliceDropLast A d.n
  let l_c := sliceDropLast l d.n
  let u_c := sliceDropLast u d.n
  convert_problem_from_double_sided d.P d.q C l_c u_c lb ub name

/-- `load_problem_from_mat_file` (source lines 73-114) on the loaded
fields: check `A.shape == (m, n)` and either fail or proceed with
normalization, splitting and conversion.  The filesystem read itself
(`spio.loadmat`) and the name extraction from the path are abstracted:
`d` is the dictionary of loaded fields and `name` the basename. -/
def load_problem_from_mat_file (d : MatDict) (name : String) :
    Except LoadError Problem :=
  if matShape d.A = (d.m, d.n) then .ok (loadBody d name)
  else .error .ShapeMismatchError

/-! ## Helper lemmas -/

theorem mem_nonzeroIdx {mask : List Bool} {i : Nat} :
    i ∈ nonzeroIdx mask ↔ i < mask.length ∧ mask.getD i false = true := by
  simp [nonzeroIdx, List.mem_filter, List.mem_range]

theorem nodup_nonzeroIdx (mask : List Bool) : (nonzeroIdx mask).Nodup :=
  List.Nodup.filter _ (List.nodup_range _)

theorem getD_map_not (mask : List Bool) {i : Nat} (h : i < mask.length) :
    (mask.map not).getD i false = !(mask.getD i false) := by
  have h2 : i < (mask.map not).length := by simpa using h
  rw [List.getD_eq_getElem _ _ h2, List.getD_eq_getElem _ _ h, List.getElem_map]

theorem length_eqMask (l u : List EVal) :
    (eqMask l u).length = min l.length u.length := by
  simp [eqMask]

theorem maskSelect_map_self {α : Type} (xs : List α) (p : α → Bool) :
    maskSelect xs (xs.map p) = xs.filter p := by
  induction xs with
  | nil => rfl
  | cons a t ih =>
      simp only [maskSelect, List.map_cons, List.zip_cons_cons,
        List.filterMap_cons] at *
      cases h : p a <;> simp [h, List.filter_cons, ih]

theorem maskSelect_length_congr {α β : Type} (xs : List α) (ys : List β)
    (mask : List Bool) (h : xs.length = ys.length) :
    (maskSelect xs mask).length = (maskSelect ys mask).length := by
  induction xs generalizing ys mask with
  | nil =>
      cases ys with
      | nil => rfl
      | cons b t => simp at h
  | cons a t ih =>
      cases ys with
      | nil => simp at h
      | cons b s =>
          cases mask with
          | nil => rfl
          | cons m ms =>
              simp only [maskSelect, List.zip_cons_cons, List.filterMap_cons]
              have ht : t.length = s.length := by simpa using h
              cases m <;> simp [maskSelect] at ih ⊢ <;> exact ih s ms ht

theorem prunedGH_snd (G0 : List (List EVal)) (h0 : List EVal) :
    (prunedGH G0 h0).2 = h0.filter lt_inf := by
  unfold prunedGH
  cases hall : (h0.map lt_inf).all id with
  | true =>
      simp only [hall, if_pos]
      have hmem : ∀ x ∈ h0, lt_inf x = true := by
        intro x hx
        have := List.all_eq_true.mp hall (lt_inf x) (List.mem_map_of_mem _ hx)
        simpa using this
      exact (List.filter_eq_self.mpr hmem).symm
  | false =>
      simp only [hall]
      exact maskSelect_map_self h0 lt_inf

theorem prunedGH_length (G0 : List (List EVal)) (h0 : List EVal)
    (h : G0.length = h0.length) :
    (prunedGH G0 h0).1.length = (prunedGH G0 h0).2.length := by
  unfold prunedGH
  cases hall : (h0.map lt_inf).all id with
  | true => rw [if_pos hall]; exact h
  | false =>
      rw [if_neg (by simp [hall])]
      exact maskSelect_length_congr G0 h0 (h0.map lt_inf) h

theorem length_stackedG (C : List (List EVal)) (idx : List Nat) :
    (stackedG C idx).length = 2 * idx.length := by
  simp [stackedG, fancyRows, two_mul]

theorem length_stackedH (l u : List EVal) (idx : List Nat) :
    (stackedH l u idx).length = 2 * idx.length := by
  simp [stackedH, fancyVec, two_mul]

theorem lt_inf_eq_false_iff (x : EVal) : lt_inf x = false ↔ x = EVal.posInf := by
  cases x <;> simp [lt_inf]

theorem getD_mem_or {α : Type} (xs : List α) (i : Nat) (d : α) :
    xs.getD i d ∈ xs ∨ xs.getD i d = d := by
  by_cases h : i < xs.length
  · left
    rw [List.getD_eq_getElem _ _ h]
    exact List.getElem_mem h
  · right
    exact List.getD_eq_default _ _ (le_of_not_lt h)

theorem if_pos_some_eq_none_iff {α : Type} {n : Nat} {x : α} :
    (if 0 < n then some x else none) = none ↔ n = 0 := by
  by_cases h : 0 < n
  · simp only [h, if_pos]
    constructor
    · intro hc
      exact absurd hc (Option.some_ne_none x)
    · intro hn
      omega
  · rw [if_neg h]
    constructor
    · intro _
      omega
    · intro _
      rfl

theorem eqMask_getElem (l u : List EVal) (i : Nat)
    (h : i < (eqMask l u).length) :
    (eqMask l u).getD i false
      = bounds_are_equal (l.getD i (.fin 0)) (u.getD i (.fin 0)) := by
  have hl : i < l.length := by rw [length_eqMask] at h; omega
  have hu : i < u.length := by rw [length_eqMask] at h; omega
  rw [List.getD_eq_getElem _ _ h, List.getD_eq_getElem _ _ hl,
    List.getD_eq_getElem _ _ hu]
  simp only [eqMask]
  exact List.getElem_zipWith

/-! ## Claims -/

/-- C2: a row is classified as an equality row iff `u[i] - l[i] < 1e-10`,
with a strict comparison — the classification of row `i` is exactly the
strict test `u[i] - l[i] < 1e-10`; a finite row of width exactly `1e-10`
is an inequality row (it lands in `G`, not `A`), while a row of width
`0.999e-10` is an equality row (it lands in `A`, not `G`). -/
theorem equality_classification_uses_strict_tolerance :
    (∀ a b : ℚ, bounds_are_equal (.fin a) (.fin b) = true ↔ b - a < tol)
    ∧ (∀ (l u : List EVal) (i : Nat), i < (eqMask l u).length →
        ((eqMask l u).getD i false
          = bounds_are_equal (l.getD i (.fin 0)) (u.getD i (.fin 0))))
    ∧ bounds_are_equal (.fin 0) (.fin (1 / 10 ^ 10)) = false
    ∧ bounds_are_equal (.fin 0) (.fin (999 / 10 ^ 13)) = true
    ∧ (convert_problem_from_double_sided [] [] [[.fin 1]] [.fin 0]
        [.fin (1 / 10 ^ 10)] [] [] "w").A = none
    ∧ (convert_problem_from_double_sided [] [] [[.fin 1]] [.fin 0]
        [.fin (1 / 10 ^ 10)] [] [] "w").G = some [[.fin 1], [.fin (-1)]]
    ∧ (convert_problem_from_double_sided [] [] [[.fin 3]] [.fin 0]
        [.fin (999 / 10 ^ 13)] [] [] "v").A = some [[.fin 3]]
    ∧ (convert_problem_from_double_sided [] [] [[.fin 3]] [.fin 0]
        [.fin (999 / 10 ^ 13)] [] [] "v").G = none := by
  refine ⟨?_, eqMask_getElem, by norm_num [bounds_are_equal, esub, xltFin, tol],
    by norm_num [bounds_are_equal, esub, xltFin, tol],
    by norm_num [convert_problem_from_double_sided, eqRowsOf, ineqRowsOf,
      eqMask, bounds_are_equal, esub, xltFin, tol, nonzeroIdx, fancyRows,
      fancyVec, stackedG, stackedH, prunedGH, maskSelect, nnz, eneg, lt_inf,
      List.range_succ, List.filterMap_cons],
    by norm_num [convert_problem_from_double_sided, eqRowsOf, ineqRowsOf,
      eqMask, bounds_are_equal, esub, xltFin, tol, nonzeroIdx, fancyRows,
      fancyVec, stackedG, stackedH, prunedGH, maskSelect, nnz, eneg, lt_inf,
      List.range_succ, List.filterMap_cons],
    by norm_num [convert_problem_from_double_sided, eqRowsOf, ineqRowsOf,
      eqMask, bounds_are_equal, esub, xltFin, tol, nonzeroIdx, fancyRows,
      fancyVec, stackedG, stackedH, prunedGH, maskSelect, nnz, eneg, lt_inf,
      List.range_succ, List.filterMap_cons],
    by norm_num [convert_problem_from_double_sided, eqRowsOf, ineqRowsOf,
      eqMask, bounds_are_equal, esub, xltFin, tol, nonzeroIdx, fancyRows,
      fancyVec, stackedG, stackedH, prunedGH, maskSelect, nnz, eneg, lt_inf,
      List.range_succ, List.filterMap_cons]⟩
  intro a b
  simp [bounds_are_equal, esub, xltFin]

/-- C5: during parsing, every entry of `A`, `l` and `u` whose magnitude
exceeds `9e19` is replaced by the correspondingly signed infinity and no
other entry is changed: values above `9e19` become `+∞`, values below
`-9e19` become `-∞`, values of magnitude at most `9e19` are kept; in
particular `1e20 ↦ +∞`, `9.1e19 ↦ +∞` and `8.9e19` is unchanged; the
normalization is applied entrywise to the loaded `A`, `l` and `u`. -/
theorem sentinel_normalization_signed_infinity :
    (∀ x : ℚ, 9 * 10 ^ 19 < x → normalizeEntry x = .posInf)
    ∧ (∀ x : ℚ, x < -(9 * 10 ^ 19) → normalizeEntry x = .negInf)
    ∧ (∀ x : ℚ, -(9 * 10 ^ 19) ≤ x → x ≤ 9 * 10 ^ 19 → normalizeEntry x = .fin x)
    ∧ normalizeEntry (10 ^ 20) = .posInf
    ∧ normalizeEntry (91 * 10 ^ 18) = .posInf
    ∧ normalizeEntry (89 * 10 ^ 18) = .fin (89 * 10 ^ 18)
    ∧ (∀ (v : List ℚ) (i : Nat), i < v.length →
        (normalizeVec v).getD i (.fin 0) = normalizeEntry (v.getD i 0))
    ∧ (∀ (M : List (List ℚ)) (i : Nat), i < M.length →
        (normalizeMat M).getD i [] = (M.getD i []).map normalizeEntry) := by
  refine ⟨?_, ?_, ?_, by norm_num [normalizeEntry], by norm_num [normalizeEntry],
    by norm_num [normalizeEntry], ?_, ?_⟩
  · intro x hx
    rw [normalizeEntry, if_pos hx]
  · intro x hx
    rw [normalizeEntry, if_neg (by linarith), if_pos hx]
  · intro x h1 h2
    rw [normalizeEntry, if_neg (by linarith), if_neg (by linarith)]
  · intro v i hi
    have hi2 : i < (normalizeVec v).length := by simpa [normalizeVec] using hi
    rw [List.getD_eq_getElem _ _ hi2, List.getD_eq_getElem _ _ hi]
    simp [normalizeVec]
  · intro M i hi
    have hi2 : i < (normalizeMat M).length := by simpa [normalizeMat] using hi
    rw [List.getD_eq_getElem _ _ hi2, List.getD_eq_getElem _ _ hi]
    simp [normalizeMat]

/-- C6: the parser fails with `ShapeMismatchError` whenever the shape of
the loaded `A` differs from the declared `(m, n)`, returning no partial
result (the `Except` is an error), and when the shape matches, the check
passes and parsing proceeds to normalization, splitting and conversion. -/
theorem shape_mismatch_fails_loading (d : MatDict) (name : String) :
    (matShape d.A ≠ (d.m, d.n) →
      load_problem_from_mat_file d name = .error .ShapeMismatchError)
    ∧ (matShape d.A = (d.m, d.n) →
      load_problem_from_mat_file d name = .ok (loadBody d name)) := by
  constructor
  · intro h
    rw [load_problem_from_mat_file, if_neg h]
  · intro h
    rw [load_problem_from_mat_file, if_pos h]

/-- C1: for the non-equality rows, the converter first stacks exactly two
one-sided rows per row (`G`/`h` before pruning have `2·k` rows for `k`
inequality rows) and then removes exactly the stacked rows whose `h`
entry is `+∞` (the surviving `h` is the stacked `h` filtered by
`< ∞`, a test that fails precisely on `+∞`); consequently a row with
`l = -∞, u = 5` contributes exactly one surviving row `C[i] x ≤ 5` and a
row with `l = -2, u = 5` contributes two surviving rows `C[i] x ≤ 5` and
`-C[i] x ≤ 2`. -/
theorem inequality_rows_stacked_twice_then_pruned :
    (∀ (C : List (List EVal)) (l u : List EVal),
      (stackedH l u (ineqRowsOf l u)).length = 2 * (ineqRowsOf l u).length
      ∧ (stackedG C (ineqRowsOf l u)).length = 2 * (ineqRowsOf l u).length
      ∧ (prunedGH (stackedG C (ineqRowsOf l u))
          (stackedH l u (ineqRowsOf l u))).2
        = (stackedH l u (ineqRowsOf l u)).filter lt_inf)
    ∧ (∀ x : EVal, lt_inf x = false ↔ x = EVal.posInf)
    ∧ (convert_problem_from_double_sided [] [] [[.fin 1]] [.negInf] [.fin 5]
        [] [] "one").G = some [[.fin 1]]
    ∧ (convert_problem_from_double_sided [] [] [[.fin 1]] [.negInf] [.fin 5]
        [] [] "one").h = some [.fin 5]
    ∧ (convert_problem_from_double_sided [] [] [[.fin 1]] [.fin (-2)] [.fin 5]
        [] [] "two").G = some [[.fin 1], [.fin (-1)]]
    ∧ (convert_problem_from_double_sided [] [] [[.fin 1]] [.fin (-2)] [.fin 5]
        [] [] "two").h = some [.fin 5, .fin 2] := by
  refine ⟨?_, ?_,
    by norm_num [convert_problem_from_double_sided, eqRowsOf, ineqRowsOf,
      eqMask, bounds_are_equal, esub, xltFin, tol, nonzeroIdx, fancyRows,
      fancyVec, stackedG, stackedH, prunedGH, maskSelect, nnz, eneg, lt_inf,
      List.range_succ, List.filterMap_cons],
    by norm_num [convert_problem_from_double_sided, eqRowsOf, ineqRowsOf,
      eqMask, bounds_are_equal, esub, xltFin, tol, nonzeroIdx, fancyRows,
      fancyVec, stackedG, stackedH, prunedGH, maskSelect, nnz, eneg, lt_inf,
      List.range_succ, List.filterMap_cons],
    by norm_num [convert_problem_from_double_sided, eqRowsOf, ineqRowsOf,
      eqMask, bounds_are_equal, esub, xltFin, tol, nonzeroIdx, fancyRows,
      fancyVec, stackedG, stackedH, prunedGH, maskSelect, nnz, eneg, lt_inf,
      List.range_succ, List.filterMap_cons],
    by norm_num [convert_problem_from_double_sided, eqRowsOf, ineqRowsOf,
      eqMask, bounds_are_equal, esub, xltFin, tol, nonzeroIdx, fancyRows,
      fancyVec, stackedG, stackedH, prunedGH, maskSelect, nnz, eneg, lt_inf,
      List.range_succ, List.filterMap_cons]⟩
  · intro C l u
    exact ⟨length_stackedH l u _, length_stackedG C _, prunedGH_snd _ _⟩
  · intro x
    exact lt_inf_eq_false_iff x

/-- C10: each output component's absence is decided by its own
stored-entry count, not by its row count — `G` (resp. `A`) is `None` iff
its number of stored nonzeros is zero while `h` (resp. `b`) is `None` iff
its element count is zero; hence a single non-equality all-zero row with
finite bounds yields `G = None` together with a non-`None` `h`. -/
theorem absence_decided_by_stored_entry_count
    (P : List (List ℚ)) (q : List ℚ) (C : List (List EVal))
    (l u lb ub : List EVal) (name : String) :
    ((convert_problem_from_double_sided P q C l u lb ub name).G = none
      ↔ nnz (prunedGH (stackedG C (ineqRowsOf l u))
          (stackedH l u (ineqRowsOf l u))).1 = 0)
    ∧ ((convert_problem_from_double_sided P q C l u lb ub name).h = none
      ↔ (prunedGH (stackedG C (ineqRowsOf l u))
          (stackedH l u (ineqRowsOf l u))).2.length = 0)
    ∧ ((convert_problem_from_double_sided P q C l u lb ub name).A = none
      ↔ nnz (fancyRows C (eqRowsOf l u)) = 0)
    ∧ ((convert_problem_from_double_sided P q C l u lb ub name).b = none
      ↔ (fancyVec u (eqRowsOf l u)).length = 0)
    ∧ (convert_problem_from_double_sided [] [] [[.fin 0, .fin 0]]
        [.fin (-2)] [.fin 5] [] [] "z").G = none
    ∧ (convert_problem_from_double_sided [] [] [[.fin 0, .fin 0]]
        [.fin (-2)] [.fin 5] [] [] "z").h = some [.fin 5, .fin 2] := by
  refine ⟨if_pos_some_eq_none_iff, if_pos_some_eq_none_iff,
    if_pos_some_eq_none_iff, if_pos_some_eq_none_iff,
    by norm_num [convert_problem_from_double_sided, eqRowsOf, ineqRowsOf,
      eqMask, bounds_are_equal, esub, xltFin, tol, nonzeroIdx, fancyRows,
      fancyVec, stackedG, stackedH, prunedGH, maskSelect, nnz, eneg, lt_inf,
      List.range_succ, List.filterMap_cons],
    by norm_num [convert_problem_from_double_sided, eqRowsOf, ineqRowsOf,
      eqMask, bounds_are_equal, esub, xltFin, tol, nonzeroIdx, fancyRows,
      fancyVec, stackedG, stackedH, prunedGH, maskSelect, nnz, eneg, lt_inf,
      List.range_succ, List.filterMap_cons]⟩

/-- C3: the equality-row indices and inequality-row indices are each
duplicate-free, disjoint, and together cover exactly the row index range
`0..m-1` of `C`. -/
theorem row_classification_partitions_indices
    (C : List (List EVal)) (l u : List EVal)
    (hl : l.length = C.length) (hu : u.length = C.length) :
    (eqRowsOf l u).Nodup ∧ (ineqRowsOf l u).Nodup
    ∧ (∀ i : Nat, ¬(i ∈ eqRowsOf l u ∧ i ∈ ineqRowsOf l u))
    ∧ (∀ i : Nat, i ∈ eqRowsOf l u ∨ i ∈ ineqRowsOf l u ↔ i < C.length) := by
  have hm : (eqMask l u).length = C.length := by
    rw [length_eqMask, hl, hu]
    omega
  refine ⟨nodup_nonzeroIdx _, nodup_nonzeroIdx _, ?_, ?_⟩
  · rintro i ⟨h1, h2⟩
    rw [eqRowsOf, mem_nonzeroIdx] at h1
    rw [ineqRowsOf, mem_nonzeroIdx] at h2
    rw [getD_map_not _ h1.1, h1.2] at h2
    simp at h2
  · intro i
    constructor
    · rintro (h | h)
      · rw [eqRowsOf, mem_nonzeroIdx] at h
        exact hm ▸ h.1
      · rw [ineqRowsOf, mem_nonzeroIdx] at h
        have : i < (eqMask l u).length := by simpa using h.1
        exact hm ▸ this
    · intro hi
      have hlen : i < (eqMask l u).length := by rw [hm]; exact hi
      by_cases hb : (eqMask l u).getD i false = true
      · left
        rw [eqRowsOf, mem_nonzeroIdx]
        exact ⟨hlen, hb⟩
      · right
        rw [ineqRowsOf, mem_nonzeroIdx]
        refine ⟨by simpa using hlen, ?_⟩
        rw [getD_map_not _ hlen]
        rw [Bool.not_eq_true] at hb
        rw [hb]
        rfl

theorem row_classification_partitions_indices_witness :
    (eqRowsOf [EVal.fin 0] [EVal.fin 0]).Nodup :=
  (row_classification_partitions_indices [[EVal.fin 1]]
    [EVal.fin 0] [EVal.fin 0] rfl rfl).1

/-- C4: a constraint block that would have zero rows is returned as
absent: if the pruned inequality block has zero rows then both `G` and
`h` are `None`, if there are zero equality rows then both `A` and `b`
are `None`; in particular when every row is classified as an equality
both `G` and `h` are `None`, and when no row is an equality both `A`
and `b` are `None`. -/
theorem empty_blocks_encoded_as_none
    (P : List (List ℚ)) (q : List ℚ) (C : List (List EVal))
    (l u lb ub : List EVal) (name : String) :
    ((prunedGH (stackedG C (ineqRowsOf l u))
        (stackedH l u (ineqRowsOf l u))).2.length = 0 →
      (convert_problem_from_double_sided P q C l u lb ub name).G = none
      ∧ (convert_problem_from_double_sided P q C l u lb ub name).h = none)
    ∧ ((eqRowsOf l u).length = 0 →
      (convert_problem_from_double_sided P q C l u lb ub name).A = none
      ∧ (convert_problem_from_double_sided P q C l u lb ub name).b = none)
    ∧ ((∀ x ∈ eqMask l u, x = true) →
      (convert_problem_from_double_sided P q C l u lb ub name).G = none
      ∧ (convert_problem_from_double_sided P q C l u lb ub name).h = none)
    ∧ ((∀ x ∈ eqMask l u, x = false) →
      (convert_problem_from_double_sided P q C l u lb ub name).A = none
      ∧ (convert_problem_from_double_sided P q C l u lb ub name).b = none) := by
  have key1 : (prunedGH (stackedG C (ineqRowsOf l u))
      (stackedH l u (ineqRowsOf l u))).2.length = 0 →
      (convert_problem_from_double_sided P q C l u lb ub name).G = none
      ∧ (convert_problem_from_double_sided P q C l u lb ub name).h = none := by
    intro hz
    have hlen := prunedGH_length (stackedG C (ineqRowsOf l u))
      (stackedH l u (ineqRowsOf l u))
      (by rw [length_stackedG, length_stackedH])
    constructor
    · apply if_pos_some_eq_none_iff.mpr
      have h1 : (prunedGH (stackedG C (ineqRowsOf l u))
          (stackedH l u (ineqRowsOf l u))).1 = [] := by
        rw [← List.length_eq_zero]
        omega
      rw [h1]
      rfl
    · exact if_pos_some_eq_none_iff.mpr hz
  have key2 : (eqRowsOf l u).length = 0 →
      (convert_problem_from_double_sided P q C l u lb ub name).A = none
      ∧ (convert_problem_from_double_sided P q C l u lb ub name).b = none := by
    intro hz
    have he : eqRowsOf l u = [] := List.length_eq_zero.mp hz
    constructor
    · apply if_pos_some_eq_none_iff.mpr
      rw [he]
      rfl
    · apply if_pos_some_eq_none_iff.mpr
      rw [he]
      rfl
  refine ⟨key1, key2, ?_, ?_⟩
  · intro hall
    apply key1
    have hie : ineqRowsOf l u = [] := by
      rw [ineqRowsOf, List.eq_nil_iff_forall_not_mem]
      intro i hi
      rw [mem_nonzeroIdx] at hi
      have hlen : i < (eqMask l u).length := by simpa using hi.1
      have hmem : (eqMask l u).getD i false = true := by
        rw [List.getD_eq_getElem _ _ hlen]
        exact hall _ (List.getElem_mem hlen)
      rw [getD_map_not _ hlen, hmem] at hi
      simp at hi
    rw [prunedGH_snd, hie]
    rfl
  · intro hall
    apply key2
    have hee : eqRowsOf l u = [] := by
      rw [eqRowsOf, List.eq_nil_iff_forall_not_mem]
      intro i hi
      rw [mem_nonzeroIdx] at hi
      have hmem : (eqMask l u).getD i false ∈ eqMask l u := by
        rw [List.getD_eq_getElem _ _ hi.1]
        exact List.getElem_mem hi.1
      have := hall _ hmem
      rw [hi.2] at this
      exact absurd this (by simp)
    rw [hee]
    rfl

theorem empty_blocks_encoded_as_none_witness :
    (convert_problem_from_double_sided [] [] [] [] [] [] [] "e").G = none
    ∧ (convert_problem_from_double_sided [] [] [] [] [] [] [] "e").h = none
    ∧ (convert_problem_from_double_sided [] [] [] [] [] [] [] "e").A = none
    ∧ (convert_problem_from_double_sided [] [] [] [] [] [] [] "e").b = none := by
  have t := empty_blocks_encoded_as_none [] [] [] [] [] [] [] "e"
  exact ⟨(t.1 rfl).1, (t.1 rfl).2, (t.2.1 rfl).1, (t.2.1 rfl).2⟩

/-- C7: whenever the converter returns a non-absent `h`, it contains no
`+∞` entry: every stacked row with an infinite right-hand side was
removed along with its `G` row. -/
theorem returned_h_has_no_posInf
    (P : List (List ℚ)) (q : List ℚ) (C : List (List EVal))
    (l u lb ub : List EVal) (name : String) (hv : List EVal)
    (hsome : (convert_problem_from_double_sided P q C l u lb ub name).h
      = some hv) :
    ∀ x ∈ hv, x ≠ EVal.posInf := by
  simp only [convert_problem_from_double_sided] at hsome
  split at hsome
  · intro x hx
    have hval : hv = (prunedGH (stackedG C (ineqRowsOf l u))
        (stackedH l u (ineqRowsOf l u))).2 := (Option.some.inj hsome).symm
    rw [hval, prunedGH_snd] at hx
    have hfin := (List.mem_filter.mp hx).2
    intro heq
    rw [heq] at hfin
    simp [lt_inf] at hfin
  · exact absurd hsome (by simp)

theorem returned_h_has_no_posInf_witness :
    EVal.fin 5 ≠ EVal.posInf :=
  returned_h_has_no_posInf [] [] [[EVal.fin 1]] [EVal.negInf] [EVal.fin 5]
    [] [] "one" [EVal.fin 5]
    (by norm_num [convert_problem_from_double_sided, eqRowsOf, ineqRowsOf,
      eqMask, bounds_are_equal, esub, xltFin, tol, nonzeroIdx, fancyRows,
      fancyVec, stackedG, stackedH, prunedGH, maskSelect, nnz, eneg, lt_inf,
      List.range_succ, List.filterMap_cons])
    (EVal.fin 5) (by simp)

theorem eneg_ne_negInf {x : EVal} (h : x ≠ EVal.posInf) :
    eneg x ≠ EVal.negInf := by
  cases x with
  | negInf => simp [eneg]
  | fin a => simp [eneg]
  | posInf => exact absurd rfl h

/-- C8: every equality row `i` is copied verbatim into `A` (the row at
the position of `i` among the equality indices is row `i` of `C`) and
its `b` entry is `u[i]` — the upper bound, not `l[i]` and not an
average: on a row with `l = 0` and `u = 1e-11` (within tolerance but
distinct) the returned `b` entry is exactly `1e-11`. -/
theorem equality_rows_copy_row_and_upper_bound
    (C : List (List EVal)) (l u : List EVal) (i : Nat)
    (hi : i ∈ eqRowsOf l u) :
    ((fancyRows C (eqRowsOf l u)).getD ((eqRowsOf l u).indexOf i) []
      = C.getD i []
    ∧ (fancyVec u (eqRowsOf l u)).getD ((eqRowsOf l u).indexOf i) (.fin 0)
      = u.getD i (.fin 0))
    ∧ (convert_problem_from_double_sided [] [] [[.fin 3]] [.fin 0]
        [.fin (1 / 10 ^ 11)] [] [] "eq").A = some [[.fin 3]]
    ∧ (convert_problem_from_double_sided [] [] [[.fin 3]] [.fin 0]
        [.fin (1 / 10 ^ 11)] [] [] "eq").b = some [.fin (1 / 10 ^ 11)] := by
  have hj : (eqRowsOf l u).indexOf i < (eqRowsOf l u).length :=
    List.indexOf_lt_length.mpr hi
  have hidx : (eqRowsOf l u)[(eqRowsOf l u).indexOf i] = i :=
    List.getElem_indexOf hj
  refine ⟨⟨?_, ?_⟩,
    by norm_num [convert_problem_from_double_sided, eqRowsOf, ineqRowsOf,
      eqMask, bounds_are_equal, esub, xltFin, tol, nonzeroIdx, fancyRows,
      fancyVec, stackedG, stackedH, prunedGH, maskSelect, nnz, eneg, lt_inf,
      List.range_succ, List.filterMap_cons],
    by norm_num [convert_problem_from_double_sided, eqRowsOf, ineqRowsOf,
      eqMask, bounds_are_equal, esub, xltFin, tol, nonzeroIdx, fancyRows,
      fancyVec, stackedG, stackedH, prunedGH, maskSelect, nnz, eneg, lt_inf,
      List.range_succ, List.filterMap_cons]⟩
  · have hlen : (eqRowsOf l u).indexOf i < (fancyRows C (eqRowsOf l u)).length := by
      simpa [fancyRows] using hj
    rw [List.getD_eq_getElem _ _ hlen]
    simp only [fancyRows, List.getElem_map]
    rw [hidx]
  · have hlen : (eqRowsOf l u).indexOf i < (fancyVec u (eqRowsOf l u)).length := by
      simpa [fancyVec] using hj
    rw [List.getD_eq_getElem _ _ hlen]
    simp only [fancyVec, List.getElem_map]
    rw [hidx]

theorem equality_rows_copy_row_and_upper_bound_witness :
    (fancyRows [[EVal.fin 7]] (eqRowsOf [EVal.fin 2] [EVal.fin 2])).getD
        ((eqRowsOf [EVal.fin 2] [EVal.fin 2]).indexOf 0) []
      = ([[EVal.fin 7]] : List (List EVal)).getD 0 [] :=
  (equality_rows_copy_row_and_upper_bound [[EVal.fin 7]]
    [EVal.fin 2] [EVal.fin 2] 0
    (by norm_num [eqRowsOf, eqMask, bounds_are_equal, esub, xltFin, tol,
      nonzeroIdx, List.range_succ])).1.1

/-- C9: under the input encoding (no `+∞` in `l`, no `-∞` in `u`), no
stacked inequality row ever has a `-∞` right-hand side, and hence the
returned `h` (when present) contains no `-∞` entry. -/
theorem h_never_contains_negInf
    (P : List (List ℚ)) (q : List ℚ) (C : List (List EVal))
    (l u lb ub : List EVal) (name : String)
    (hL : ∀ x ∈ l, x ≠ EVal.posInf) (hU : ∀ x ∈ u, x ≠ EVal.negInf) :
    (∀ x ∈ stackedH l u (ineqRowsOf l u), x ≠ EVal.negInf)
    ∧ (∀ hv, (convert_problem_from_double_sided P q C l u lb ub name).h
        = some hv → ∀ x ∈ hv, x ≠ EVal.negInf) := by
  have hstack : ∀ x ∈ stackedH l u (ineqRowsOf l u), x ≠ EVal.negInf := by
    intro x hx
    rw [stackedH, List.mem_append] at hx
    rcases hx with hx | hx
    · rw [fancyVec, List.mem_map] at hx
      obtain ⟨i, _, rfl⟩ := hx
      rcases getD_mem_or u i (.fin 0) with hm | hd
      · exact hU _ hm
      · rw [hd]
        simp
    · rw [List.mem_map] at hx
      obtain ⟨y, hy, rfl⟩ := hx
      rw [fancyVec, List.mem_map] at hy
      obtain ⟨i, _, rfl⟩ := hy
      rcases getD_mem_or l i (.fin 0) with hm | hd
      · exact eneg_ne_negInf (hL _ hm)
      · rw [hd]
        simp [eneg]
  refine ⟨hstack, ?_⟩
  intro hv hsome x hx
  simp only [convert_problem_from_double_sided] at hsome
  split at hsome
  · have hval : hv = (prunedGH (stackedG C (ineqRowsOf l u))
        (stackedH l u (ineqRowsOf l u))).2 := (Option.some.inj hsome).symm
    rw [hval, prunedGH_snd] at hx
    exact hstack x (List.mem_filter.mp hx).1
  · exact absurd hsome (by simp)

theorem h_never_contains_negInf_witness :
    EVal.fin 5 ≠ EVal.negInf :=
  (h_never_contains_negInf [] [] [[EVal.fin 1]] [EVal.negInf] [EVal.fin 5]
    [] [] "one"
    (by intro x hx; simp at hx; rw [hx]; simp)
    (by intro x hx; simp at hx; rw [hx]; simp)).1
    (EVal.fin 5)
    (by norm_num [stackedH, ineqRowsOf, eqMask, bounds_are_equal, esub,
      xltFin, tol, nonzeroIdx, fancyVec, eneg, List.range_succ])

theorem shape_mismatch_fails_loading_witness :
    load_problem_from_mat_file
      { P := [], q := [], A := [[1]], l := [], u := [], n := 2, m := 2 } "bad"
      = .error .ShapeMismatchError :=
  (shape_mismatch_fails_loading
    { P := [], q := [], A := [[1]], l := [], u := [], n := 2, m := 2 } "bad").1
    (by decide)
